import Mathlib

/-!
Verification of the resumable scrape driver of `scraper.py` (ECI election
results scraper).  The embedding models the file-system artifacts (the
`constituency_results` per-unit directory and the combined master CSV), the
completion tracker `get_completed_constituencies`, the sink functions
`save_data` / `save_constituency_data`, the per-unit extraction wrapper
`scrape_constituency`, and the drivers `scrape_all` / `scrape_single`,
together with the interrupt / fatal-error paths of `main`.
-/

/-! ### Decimal rendering and parsing of filenames -/

/-- Numeric value of a digit character (`c.toNat - 48`, as Python `int` sees it). -/
def charVal (c : Char) : Nat := c.toNat - 48

/-- Whether a character is an ASCII decimal digit. -/
def isDigitChar (c : Char) : Bool := decide ('0' ≤ c) && decide (c ≤ '9')

/-- Little-endian base-10 digits of `n`, with explicit fuel so that the
definition is structurally recursive (and hence kernel-computable). -/
def decDigits : Nat → Nat → List Nat
  | _, 0 => []
  | 0, _ + 1 => []
  | fuel + 1, m + 1 => (m + 1) % 10 :: decDigits fuel ((m + 1) / 10)

/-- The decimal digit characters of `n`, most significant first
(`""` for `n = 0`, matching Python's `"%d" % n` up to the zero case which
is always padded below). -/
def natDecChars (n : Nat) : List Char := ((decDigits n n).map Nat.digitChar).reverse

/-- `f"{n:03d}"`: the decimal rendering of `n` left-padded with `'0'` to
width at least 3. -/
def pad3chars (n : Nat) : List Char :=
  List.replicate (3 - (natDecChars n).length) '0' ++ natDecChars n

/-- Python `int(s)` on the digit string `s` (restricted to plain digit
strings, which is the only shape the scraper produces): `none` models a
raised `ValueError`. -/
def parseNatDigits (cs : List Char) : Option Nat :=
  if cs ≠ [] ∧ cs.all isDigitChar = true then
    some (cs.foldl (fun a c => a * 10 + charVal c) 0)
  else none

/-- `int(filename.split('_')[0])`: parse the token before the first
underscore as a number, `none` when that raises. -/
def parseFilenameNum (filename : String) : Option Nat :=
  parseNatDigits (filename.data.takeWhile (fun c => c ≠ '_'))

/-- `filename.endswith('.csv')`. -/
def hasCsvExt (filename : String) : Bool :=
  decide (filename.data.reverse.take 4 = ['v', 's', 'c', '.'])

/-! ### Data model

A `Record` is one candidate row: `scrape_constituency` always tags each row
with the owning constituency number (`Constituency_Number`) and the
constituency name (`Constituency_Name`); the remaining columns are kept as
an association list. -/

structure Record where
  unit : Nat
  cname : String
  fields : List (String × String)
deriving DecidableEq

/-- The output artifacts on disk: the `constituency_results` directory (a
listing of `(filename, contents)` in directory order) and the combined
master CSV (`none` when the file does not exist). -/

structure FS where
  files : List (String × List Record)
  master : Option (List Record)
deriving DecidableEq

def emptyFS : FS := ⟨[], none⟩

/-- Observable actions logged/performed while the driver runs, tagged with
the constituency number being processed. -/
inductive Event where
  | createDriver
  | logSkip (n : Nat)
  | extractCall (n : Nat)
  | logError (n : Nat)
  | savedUnit (n : Nat)
  | savedMaster (n : Nat)
  | logProgress (n : Nat)
  | sleepAfter (n : Nat)
deriving DecidableEq

def eventUnit : Event → Option Nat
  | .createDriver => none
  | .logSkip n => some n
  | .extractCall n => some n
  | .logError n => some n
  | .savedUnit n => some n
  | .savedMaster n => some n
  | .logProgress n => some n
  | .sleepAfter n => some n

/-- What the page yields for one constituency on success: the parsed
constituency name and the raw table rows. -/
structure Extraction where
  cname : String
  rows : List (List (String × String))
deriving DecidableEq

/-- Outcome of the browser/page interaction for one constituency:
success, `TimeoutException`, or any other exception. -/
inductive ExtractOutcome where
  | ok (e : Extraction)
  | timeout
  | err
deriving DecidableEq

/-- The rows of a successful extraction, tagged with the owning
constituency number and name (lines 163-191 of `scraper.py`). -/
def extractionRecords (n : Nat) (e : Extraction) : List Record :=
  e.rows.map fun r => ⟨n, e.cname, r⟩

/-! ### The scraper's functions -/

/-- `ECIScraper.scrape_constituency`: on success returns the tagged rows;
on `TimeoutException` or any other exception it logs an error and returns
`[]` (lines 196-201).  The second component is the log events emitted. -/
def scrape_constituency (extract : Nat → ExtractOutcome) (n : Nat) :
    List Record × List Event :=
  match extract n with
  | .ok e => (extractionRecords n e, [])
  | .timeout => ([], [.logError n])
  | .err => ([], [.logError n])

/-- The records `scrape_constituency` produces for unit `n`. -/
def unitData (extract : Nat → ExtractOutcome) (n : Nat) : List Record :=
  (scrape_constituency extract n).1

/-- The log events `scrape_constituency` emits for unit `n`. -/
def unitLogs (extract : Nat → ExtractOutcome) (n : Nat) : List Event :=
  (scrape_constituency extract n).2

/-- The constituency ids found in the master CSV
(`set(df['Constituency_Number'].unique())`); an absent file contributes
nothing. -/
def masterUnits (master : Option (List Record)) : Finset Nat :=
  ((master.getD []).map Record.unit).toFinset

/-- The loop over `os.listdir(output_dir)` in
`get_completed_constituencies` (lines 66-75): each `.csv` filename has its
leading token parsed with `int`; a parse failure raises, aborting the whole
loop (the surrounding `try` catches it and logs a warning).  Returns the
ids accumulated so far and whether the exception/warning occurred. -/
def scanConstituencyFiles : List String → Finset Nat → Finset Nat × Bool
  | [], acc => (acc, false)
  | f :: fs, acc =>
    if hasCsvExt f then
      match parseFilenameNum f with
      | some n => scanConstituencyFiles fs (insert n acc)
      | none => (acc, true)
    else scanConstituencyFiles fs acc

/-- `ECIScraper.get_completed_constituencies` (lines 59-90): union of the
ids scanned from per-unit filenames and the ids in the master CSV. -/
def get_completed_constituencies (fs : FS) : Finset Nat :=
  (scanConstituencyFiles (fs.files.map Prod.fst) ∅).1 ∪ masterUnits fs.master

/-- Whether the filename scan hit a malformed filename (and so logged
`"Could not read constituency files"`). -/
def scanWarned (fs : FS) : Bool :=
  (scanConstituencyFiles (fs.files.map Prod.fst) ∅).2

/-- Overwrite-or-create a file in the directory listing. -/
def writeFile (files : List (String × List Record)) (fn : String)
    (data : List Record) : List (String × List Record) :=
  if fn ∈ files.map Prod.fst then
    files.map (fun p => if p.1 = fn then (fn, data) else p)
  else files ++ [(fn, data)]

/-- `ECIScraper.save_data` (lines 203-208): rewrite the master CSV from the
full in-memory data, but only when there is data. -/
def save_data (fs : FS) (all_data : List Record) : FS :=
  match all_data with
  | [] => fs
  | _ :: _ => { fs with master := some all_data }

/-- `"001_Name.csv"`-style sanitization of the constituency name:
`name.replace(" ", "_").replace("/", "-").replace("\\", "-")`. -/
def sanitizeChar (c : Char) : Char :=
  if c = ' ' then '_' else if c = '/' then '-' else if c = '\\' then '-' else c

def sanitize (name : String) : String := String.mk (name.data.map sanitizeChar)

/-- The per-unit filename `f"{constituency_num:03d}_{safe_name}.csv"`
(basename inside `constituency_results`). -/
def constituencyFilename (constituency_num : Nat) (constituency_name : String) :
    String :=
  String.mk (pad3chars constituency_num ++ '_' ::
    ((sanitize constituency_name).data ++ ['.', 'c', 's', 'v']))

/-- `ECIScraper.save_constituency_data` (lines 210-225): for nonempty data
write one per-unit file and return its name; otherwise do nothing and
return `None`. -/
def save_constituency_data (fs : FS) (constituency_data : List Record)
    (constituency_num : Nat) (constituency_name : String) : FS × Option String :=
  match constituency_data with
  | [] => (fs, none)
  | _ :: _ =>
    let filename := constituencyFilename constituency_num constituency_name
    ({ fs with files := writeFile fs.files filename constituency_data },
      some filename)

/-! ### The resumable driver -/

/-- In-memory state of one `scrape_all` run: the artifacts, the
accumulated `self.all_data`, and the trace of observable events. -/
structure RunState where
  fs : FS
  all_data : List Record
  trace : List Event
deriving DecidableEq

/-- Loading `self.all_data` from an existing master CSV at the start of
`scrape_all` (lines 238-244). -/
def load_all_data (master : Option (List Record)) : List Record :=
  master.getD []

def initState (fs : FS) : RunState :=
  ⟨fs, load_all_data fs.master, [Event.createDriver]⟩

/-- One iteration of the `scrape_all` loop body (lines 249-276): skip a
completed unit; otherwise scrape, and when rows came back write the
per-unit file, extend `all_data`, rewrite the master CSV; sleep before the
next unit. -/
def processUnit (extract : Nat → ExtractOutcome) (completed : Finset Nat)
    (s : RunState) (n : Nat) : RunState :=
  if n ∈ completed then
    { s with trace := s.trace ++ [Event.logSkip n] }
  else
    match (scrape_constituency extract n).1 with
    | [] =>
      { s with trace := s.trace ++ (Event.extractCall n ::
          (scrape_constituency extract n).2 ++ [Event.sleepAfter n]) }
    | r :: rs =>
      { fs := save_data (save_constituency_data s.fs (r :: rs) n r.cname).1
          (s.all_data ++ r :: rs),
        all_data := s.all_data ++ r :: rs,
        trace := s.trace ++ (Event.extractCall n ::
          (scrape_constituency extract n).2 ++
          [Event.savedUnit n, Event.savedMaster n, Event.logProgress n,
            Event.sleepAfter n]) }

/-- The driver loop over a list of unit ids. -/
def runUnits (extract : Nat → ExtractOutcome) (completed : Finset Nat)
    (s : RunState) (units : List Nat) : RunState :=
  units.foldl (processUnit extract completed) s

/-- `ECIScraper.scrape_all` (lines 227-282): recompute the completion set,
load existing master data, then iterate
`range(start_from, total_constituencies + 1)`. -/
def scrape_all (extract : Nat → ExtractOutcome) (fs : FS)
    (start_from total_constituencies : Nat) : RunState :=
  runUnits extract (get_completed_constituencies fs) (initState fs)
    (List.range' start_from (total_constituencies + 1 - start_from))

/-- `ECIScraper.scrape_single` (lines 284-321): range-check first (before
any driver is created); then scrape once and save the per-unit file when
rows came back.  Returns the artifacts, the boolean result and the trace. -/
def scrape_single (extract : Nat → ExtractOutcome) (fs : FS)
    (constituency_num total_constituencies : Nat) : FS × Bool × List Event :=
  if constituency_num < 1 ∨ total_constituencies < constituency_num then
    (fs, false, [])
  else
    match (scrape_constituency extract constituency_num).1 with
    | [] =>
      (fs, false, Event.createDriver :: Event.extractCall constituency_num ::
        (scrape_constituency extract constituency_num).2)
    | r :: rs =>
      ((save_constituency_data fs (r :: rs) constituency_num r.cname).1, true,
        Event.createDriver :: Event.extractCall constituency_num ::
          (scrape_constituency extract constituency_num).2)

/-- `ECIScraper.generate_summary` (lines 323-345): `none` when there is no
data (only a warning is logged); otherwise the printed pair
(total record count, number of distinct constituencies). -/
def generate_summary (all_data : List Record) : Option (Nat × Nat) :=
  match all_data with
  | [] => none
  | _ :: _ => some (all_data.length, (all_data.map Record.unit).toFinset.card)

/-! ### The `main` exception paths -/

structure MainOutcome where
  fs : FS
  printed : List String
  exitCode : Nat
deriving DecidableEq

/-- The `except KeyboardInterrupt` branch of `main` (lines 433-438) plus
the normal fall-through to the end of `main`: flush when in `--all` mode,
print the confirmation, and return normally (exit code 0). -/
def main_on_interrupt (output_file : String) (allFlag : Bool) (s : RunState) :
    MainOutcome :=
  if allFlag then
    { fs := save_data s.fs s.all_data,
      printed := ["Scraping interrupted by user!",
        "Progress saved to " ++ output_file],
      exitCode := 0 }
  else
    { fs := s.fs, printed := ["Scraping interrupted by user!"], exitCode := 0 }

/-- The `except Exception` branch of `main` (lines 440-444) plus the normal
fall-through: flush when in `--all` mode, print the message, and return
normally (exit code 0 — `main` neither re-raises nor calls `sys.exit`). -/
def main_on_fatal (output_file : String) (allFlag : Bool) (s : RunState) :
    MainOutcome :=
  if allFlag then
    { fs := save_data s.fs s.all_data,
      printed := ["Error occurred. Progress saved to " ++ output_file],
      exitCode := 0 }
  else
    { fs := s.fs, printed := [], exitCode := 0 }

/-- The successful `--all` path of `main` (lines 423-431): run
`scrape_all`, then `generate_summary`, then return normally. -/
def main_on_success (extract : Nat → ExtractOutcome) (fs : FS)
    (start_from total : Nat) : MainOutcome :=
  { fs := (scrape_all extract fs start_from total).fs,
    printed :=
      match generate_summary (scrape_all extract fs start_from total).all_data with
      | some (r, u) =>
        ["Total Records: " ++ toString r, "Constituencies Scraped: " ++ toString u]
      | none => [],
    exitCode := 0 }

/-- The set of ids the spec ascribes to the filename scan: every `.csv`
filename's parsed leading token (spec-side definition, for the refinement
claim about `get_completed_constituencies`). -/
def specFileUnits (names : List String) : Finset Nat :=
  (names.filterMap
    (fun fn => if hasCsvExt fn then parseFilenameNum fn else none)).toFinset

/-- The head record's constituency name (used to name the per-unit file,
`constituency_data[0]['Constituency_Name']`). -/
def headCname : List Record → String
  | [] => ""
  | r :: _ => r.cname

/-- The events the driver loop appends while handling unit `n` (derived
form of one `processUnit` iteration, used to reason about the trace). -/
def unitTrace (extract : Nat → ExtractOutcome) (completed : Finset Nat)
    (n : Nat) : List Event :=
  if n ∈ completed then [Event.logSkip n]
  else
    match unitData extract n with
    | [] => Event.extractCall n :: unitLogs extract n ++ [Event.sleepAfter n]
    | _ :: _ => Event.extractCall n :: unitLogs extract n ++
        [Event.savedUnit n, Event.savedMaster n, Event.logProgress n,
          Event.sleepAfter n]

/-- A concrete deterministic extraction used by the witnesses. -/
def demoExtraction : Extraction :=
  ⟨"AGIAON", [[("Candidate", "X"), ("Party", "P"), ("Votes", "5")]]⟩

/-- A concrete extractor that succeeds everywhere. -/
def demoExtract : Nat → ExtractOutcome := fun _ => ExtractOutcome.ok demoExtraction

/-- A concrete extractor that times out on unit 3 and succeeds elsewhere. -/
def demoFailExtract : Nat → ExtractOutcome := fun n =>
  if n = 3 then ExtractOutcome.timeout else ExtractOutcome.ok demoExtraction

/-- Whether an event is an Extractor invocation. -/
def isExtractCall : Event → Bool
  | .extractCall _ => true
  | _ => false

/-! #### Round-trip lemmas for the decimal helpers -/

theorem decDigits_eq_digits : ∀ (fuel n : Nat), n ≤ fuel →
    decDigits fuel n = Nat.digits 10 n := by
  intro fuel
  induction fuel with
  | zero =>
    intro n hn
    interval_cases n
    simp [decDigits]
  | succ fuel ih =>
    intro n hn
    match n with
    | 0 => simp [decDigits]
    | m + 1 =>
      rw [decDigits, Nat.digits_def' (by norm_num : (1:ℕ) < 10) (Nat.succ_pos m)]
      congr 1
      exact ih _ (Nat.le_of_lt_succ (Nat.lt_of_lt_of_le
        (Nat.div_lt_self (Nat.succ_pos m) (by norm_num)) hn))

theorem natDecChars_eq (n : Nat) :
    natDecChars n = ((Nat.digits 10 n).map Nat.digitChar).reverse := by
  rw [natDecChars, decDigits_eq_digits n n le_rfl]

theorem charVal_digitChar {d : Nat} (hd : d < 10) :
    charVal (Nat.digitChar d) = d := by
  interval_cases d <;> rfl

theorem isDigitChar_digitChar {d : Nat} (hd : d < 10) :
    isDigitChar (Nat.digitChar d) = true := by
  interval_cases d <;> rfl

theorem digitChar_ne_underscore {d : Nat} (hd : d < 10) :
    Nat.digitChar d ≠ '_' := by
  interval_cases d <;> decide

theorem foldl_val_replicate_zero (k : Nat) (cs : List Char) :
    List.foldl (fun a c => a * 10 + charVal c) 0 (List.replicate k '0' ++ cs) =
      List.foldl (fun a c => a * 10 + charVal c) 0 cs := by
  induction k with
  | zero => rfl
  | succ k ih => simpa [List.replicate_succ] using ih

theorem foldl_rev_ofDigits : ∀ l : List Nat,
    List.foldl (fun a d => a * 10 + d) 0 l.reverse = Nat.ofDigits 10 l := by
  intro l
  induction l with
  | nil => simp [Nat.ofDigits]
  | cons d t ih =>
    rw [List.reverse_cons, List.foldl_append, ih, Nat.ofDigits_cons]
    simp
    ring

theorem foldl_map_digitChar : ∀ (l : List Nat), (∀ d ∈ l, d < 10) → ∀ a : Nat,
    List.foldl (fun x c => x * 10 + charVal c) a (l.map Nat.digitChar) =
      List.foldl (fun x d => x * 10 + d) a l := by
  intro l
  induction l with
  | nil => intro _ _; rfl
  | cons d t ih =>
    intro h a
    simp only [List.map_cons, List.foldl_cons]
    rw [charVal_digitChar (h d (List.mem_cons_self d t))]
    exact ih (fun x hx => h x (List.mem_cons_of_mem d hx)) _

theorem natDecChars_all_digits {c : Char} {n : Nat} (hc : c ∈ natDecChars n) :
    ∃ d, d < 10 ∧ c = Nat.digitChar d := by
  rw [natDecChars_eq] at hc
  rw [List.mem_reverse, List.mem_map] at hc
  obtain ⟨d, hd, rfl⟩ := hc
  exact ⟨d, Nat.digits_lt_base (by norm_num) hd, rfl⟩

theorem pad3chars_digits {c : Char} {n : Nat} (hc : c ∈ pad3chars n) :
    isDigitChar c = true ∧ c ≠ '_' := by
  rw [pad3chars, List.mem_append] at hc
  rcases hc with hc | hc
  · rw [List.eq_of_mem_replicate hc]
    exact ⟨by decide, by decide⟩
  · obtain ⟨d, hd, rfl⟩ := natDecChars_all_digits hc
    exact ⟨isDigitChar_digitChar hd, digitChar_ne_underscore hd⟩

theorem pad3chars_ne_nil (n : Nat) : pad3chars n ≠ [] := by
  rw [pad3chars]
  intro h
  rcases List.append_eq_nil.mp h with ⟨h1, h2⟩
  have hlen := congrArg List.length h1
  rw [List.length_replicate] at hlen
  rw [h2] at hlen
  simp at hlen

theorem parseNatDigits_pad3 (n : Nat) : parseNatDigits (pad3chars n) = some n := by
  rw [parseNatDigits, if_pos]
  · congr 1
    rw [pad3chars, foldl_val_replicate_zero, natDecChars_eq, ← List.map_reverse]
    rw [foldl_map_digitChar _ (fun d hd =>
      Nat.digits_lt_base (by norm_num) (List.mem_reverse.mp hd))]
    rw [foldl_rev_ofDigits, Nat.ofDigits_digits]
  · refine ⟨pad3chars_ne_nil n, ?_⟩
    rw [List.all_eq_true]
    exact fun c hc => (pad3chars_digits hc).1

/-! ### Filename round-trip lemmas -/

theorem takeWhile_append_cons {α : Type} (p : α → Bool) :
    ∀ (xs : List α) (c : α) (ys : List α), (∀ x ∈ xs, p x = true) → p c = false →
    List.takeWhile p (xs ++ c :: ys) = xs := by
  intro xs
  induction xs with
  | nil =>
    intro c ys _ hc
    simp [List.takeWhile, hc]
  | cons x xs ih =>
    intro c ys hall hc
    rw [List.cons_append, List.takeWhile_cons,
      hall x (List.mem_cons_self x xs), if_pos rfl, ih c ys
        (fun a ha => hall a (List.mem_cons_of_mem x ha)) hc]

theorem parseFilenameNum_filename (n : Nat) (name : String) :
    parseFilenameNum (constituencyFilename n name) = some n := by
  rw [parseFilenameNum, constituencyFilename]
  show parseNatDigits
    (List.takeWhile _ (pad3chars n ++ '_' ::
      ((sanitize name).data ++ ['.', 'c', 's', 'v']))) = some n
  rw [takeWhile_append_cons _ _ _ _
    (fun x hx => decide_eq_true (pad3chars_digits hx).2) (by decide)]
  exact parseNatDigits_pad3 n

theorem take4_csv (t : List Char) :
    List.take 4 ('v' :: 's' :: 'c' :: '.' :: t) = ['v', 's', 'c', '.'] := rfl

theorem hasCsvExt_filename (n : Nat) (name : String) :
    hasCsvExt (constituencyFilename n name) = true := by
  rw [hasCsvExt, decide_eq_true_eq, constituencyFilename]
  show List.take 4 ((pad3chars n ++ '_' ::
    ((sanitize name).data ++ ['.', 'c', 's', 'v'])).reverse) = _
  rw [List.reverse_append, List.reverse_cons, List.reverse_append]
  simp only [List.append_assoc]
  rw [show (['.', 'c', 's', 'v'] : List Char).reverse =
    ['v', 's', 'c', '.'] from rfl]
  exact take4_csv _

/-! ### Scan lemmas for the completion tracker -/

theorem scan_acc_subset : ∀ (names : List String) (acc : Finset Nat),
    acc ⊆ (scanConstituencyFiles names acc).1 := by
  intro names
  induction names with
  | nil => intro acc; exact fun x hx => hx
  | cons f fs ih =>
    intro acc
    rw [scanConstituencyFiles]
    by_cases hcsv : hasCsvExt f = true
    · rw [if_pos hcsv]
      cases hp : parseFilenameNum f with
      | some n =>
        exact fun x hx => ih (insert n acc) (Finset.mem_insert_of_mem hx)
      | none => exact fun x hx => hx
    · rw [if_neg hcsv]
      exact ih acc

theorem scan_append_subset : ∀ (xs ys : List String) (acc : Finset Nat),
    (scanConstituencyFiles xs acc).1 ⊆ (scanConstituencyFiles (xs ++ ys) acc).1 := by
  intro xs
  induction xs with
  | nil =>
    intro ys acc
    exact scan_acc_subset ys acc
  | cons f fs ih =>
    intro ys acc
    rw [List.cons_append, scanConstituencyFiles, scanConstituencyFiles]
    by_cases hcsv : hasCsvExt f = true
    · rw [if_pos hcsv, if_pos hcsv]
      cases hp : parseFilenameNum f with
      | some n => exact ih ys (insert n acc)
      | none => exact fun x hx => hx
    · rw [if_neg hcsv, if_neg hcsv]
      exact ih ys acc

theorem scan_wellformed : ∀ (names : List String) (acc : Finset Nat),
    (∀ f ∈ names, hasCsvExt f = true → parseFilenameNum f ≠ none) →
    scanConstituencyFiles names acc = (acc ∪ specFileUnits names, false) := by
  intro names
  induction names with
  | nil =>
    intro acc _
    simp [scanConstituencyFiles, specFileUnits]
  | cons f fs ih =>
    intro acc h
    rw [scanConstituencyFiles]
    by_cases hcsv : hasCsvExt f = true
    · rw [if_pos hcsv]
      cases hp : parseFilenameNum f with
      | some n =>
        show scanConstituencyFiles fs (insert n acc) =
          (acc ∪ specFileUnits (f :: fs), false)
        rw [ih (insert n acc) (fun a ha => h a (List.mem_cons_of_mem f ha))]
        have hspec : specFileUnits (f :: fs) = insert n (specFileUnits fs) := by
          simp [specFileUnits, List.filterMap_cons, hcsv, hp]
        rw [hspec, Finset.insert_union, Finset.union_insert]
      | none =>
        exact absurd hp (h f (List.mem_cons_self f fs) hcsv)
    · rw [if_neg hcsv]
      have hspec : specFileUnits (f :: fs) = specFileUnits fs := by
        simp [specFileUnits, List.filterMap_cons, hcsv]
      rw [hspec]
      exact ih acc (fun a ha => h a (List.mem_cons_of_mem f ha))

/-! ### Driver structure lemmas -/

theorem unitLogs_cases (extract : Nat → ExtractOutcome) (n : Nat) :
    unitLogs extract n = [] ∨ unitLogs extract n = [Event.logError n] := by
  rw [unitLogs, scrape_constituency]
  cases extract n with
  | ok e => left; rfl
  | timeout => right; rfl
  | err => right; rfl

theorem unitData_cases (extract : Nat → ExtractOutcome) (n : Nat) :
    (∃ e, extract n = ExtractOutcome.ok e ∧
      unitData extract n = extractionRecords n e) ∨ unitData extract n = [] := by
  rw [unitData, scrape_constituency]
  cases hx : extract n with
  | ok e => exact Or.inl ⟨e, rfl, rfl⟩
  | timeout => exact Or.inr rfl
  | err => exact Or.inr rfl

theorem unitData_unit (extract : Nat → ExtractOutcome) (n : Nat) :
    ∀ r ∈ unitData extract n, r.unit = n := by
  intro r hr
  rcases unitData_cases extract n with ⟨e, _, he⟩ | he
  · rw [he] at hr
    simp only [extractionRecords, List.mem_map] at hr
    obtain ⟨row, _, rfl⟩ := hr
    rfl
  · rw [he] at hr
    simp at hr

theorem processUnit_trace (extract : Nat → ExtractOutcome) (completed : Finset Nat)
    (s : RunState) (n : Nat) :
    (processUnit extract completed s n).trace =
      s.trace ++ unitTrace extract completed n := by
  rw [processUnit, unitTrace]
  by_cases hc : n ∈ completed
  · rw [if_pos hc, if_pos hc]
  · rw [if_neg hc, if_neg hc]
    simp only [unitData, unitLogs]
    split <;> rfl

theorem processUnit_fs_of_completed {completed : Finset Nat} {n : Nat}
    (extract : Nat → ExtractOutcome) (s : RunState) (hc : n ∈ completed) :
    (processUnit extract completed s n).fs = s.fs := by
  rw [processUnit, if_pos hc]

theorem processUnit_all_of_completed {completed : Finset Nat} {n : Nat}
    (extract : Nat → ExtractOutcome) (s : RunState) (hc : n ∈ completed) :
    (processUnit extract completed s n).all_data = s.all_data := by
  rw [processUnit, if_pos hc]

theorem processUnit_fs_of_nil {completed : Finset Nat} {n : Nat}
    {extract : Nat → ExtractOutcome} (s : RunState) (hc : n ∉ completed)
    (hd : unitData extract n = []) :
    (processUnit extract completed s n).fs = s.fs := by
  rw [unitData] at hd
  rw [processUnit, if_neg hc, hd]

theorem processUnit_all_of_nil {completed : Finset Nat} {n : Nat}
    {extract : Nat → ExtractOutcome} (s : RunState) (hc : n ∉ completed)
    (hd : unitData extract n = []) :
    (processUnit extract completed s n).all_data = s.all_data := by
  rw [unitData] at hd
  rw [processUnit, if_neg hc, hd]

theorem processUnit_fs_of_cons {completed : Finset Nat} {n : Nat}
    {extract : Nat → ExtractOutcome} {r : Record} {rs : List Record}
    (s : RunState) (hc : n ∉ completed) (hd : unitData extract n = r :: rs) :
    (processUnit extract completed s n).fs =
      save_data (save_constituency_data s.fs (r :: rs) n r.cname).1
        (s.all_data ++ r :: rs) := by
  rw [unitData] at hd
  rw [processUnit, if_neg hc, hd]

theorem processUnit_all_of_cons {completed : Finset Nat} {n : Nat}
    {extract : Nat → ExtractOutcome} {r : Record} {rs : List Record}
    (s : RunState) (hc : n ∉ completed) (hd : unitData extract n = r :: rs) :
    (processUnit extract completed s n).all_data = s.all_data ++ r :: rs := by
  rw [unitData] at hd
  rw [processUnit, if_neg hc, hd]

theorem save_data_of_ne_nil (fs : FS) {l : List Record} (h : l ≠ []) :
    save_data fs l = { fs with master := some l } := by
  cases l with
  | nil => exact absurd rfl h
  | cons a t => rfl

theorem save_data_files (fs : FS) (l : List Record) :
    (save_data fs l).files = fs.files := by
  cases l with
  | nil => rfl
  | cons a t => rfl

theorem save_constituency_data_master (fs : FS) (d : List Record) (n : Nat)
    (name : String) : (save_constituency_data fs d n name).1.master = fs.master := by
  cases d with
  | nil => rfl
  | cons r rs => rfl

theorem save_constituency_data_files (fs : FS) (r : Record) (rs : List Record)
    (n : Nat) (name : String) :
    (save_constituency_data fs (r :: rs) n name).1.files =
      writeFile fs.files (constituencyFilename n name) (r :: rs) := rfl

theorem map_fst_overwrite : ∀ (files : List (String × List Record)) (fn : String)
    (data : List Record),
    (files.map (fun p => if p.1 = fn then (fn, data) else p)).map Prod.fst =
      files.map Prod.fst := by
  intro files fn data
  induction files with
  | nil => rfl
  | cons p ps ih =>
    simp only [List.map_cons, ih]
    by_cases h : p.1 = fn
    · rw [if_pos h]
      simp [h]
    · rw [if_neg h]

theorem writeFile_names (files : List (String × List Record)) (fn : String)
    (data : List Record) :
    (writeFile files fn data).map Prod.fst = files.map Prod.fst ∨
      (writeFile files fn data).map Prod.fst = files.map Prod.fst ++ [fn] := by
  rw [writeFile]
  by_cases h : fn ∈ files.map Prod.fst
  · left
    rw [if_pos h]
    exact map_fst_overwrite files fn data
  · right
    rw [if_neg h]
    simp

theorem writeFile_of_fresh {files : List (String × List Record)} {fn : String}
    (data : List Record) (h : fn ∉ files.map Prod.fst) :
    writeFile files fn data = files ++ [(fn, data)] := by
  rw [writeFile, if_neg h]

theorem runUnits_nil (extract : Nat → ExtractOutcome) (c : Finset Nat)
    (s : RunState) : runUnits extract c s [] = s := rfl

theorem runUnits_cons (extract : Nat → ExtractOutcome) (c : Finset Nat)
    (s : RunState) (n : Nat) (l : List Nat) :
    runUnits extract c s (n :: l) = runUnits extract c (processUnit extract c s n) l :=
  rfl

theorem runUnits_append (extract : Nat → ExtractOutcome) (c : Finset Nat)
    (s : RunState) (l1 l2 : List Nat) :
    runUnits extract c s (l1 ++ l2) = runUnits extract c (runUnits extract c s l1) l2 :=
  List.foldl_append _ _ _ _

theorem runUnits_trace (extract : Nat → ExtractOutcome) (c : Finset Nat) :
    ∀ (units : List Nat) (s : RunState),
    (runUnits extract c s units).trace =
      s.trace ++ (units.map (unitTrace extract c)).flatten := by
  intro units
  induction units with
  | nil => intro s; simp [runUnits_nil]
  | cons n l ih =>
    intro s
    rw [runUnits_cons, ih, processUnit_trace]
    simp [List.append_assoc]

theorem unitTrace_tag (extract : Nat → ExtractOutcome) (c : Finset Nat) (n : Nat) :
    ∀ ev ∈ unitTrace extract c n, eventUnit ev = some n := by
  intro ev hev
  rw [unitTrace] at hev
  by_cases hc : n ∈ c
  · rw [if_pos hc] at hev
    rw [List.mem_singleton.mp hev]
    rfl
  · rw [if_neg hc] at hev
    rcases unitLogs_cases extract n with hl | hl <;>
      cases hd : unitData extract n <;>
      rw [hd, hl] at hev <;>
      simp only [List.nil_append, List.cons_append, List.append_nil] at hev <;>
      fin_cases hev <;> rfl

theorem unitTrace_completed {c : Finset Nat} {n : Nat}
    (extract : Nat → ExtractOutcome) (hc : n ∈ c) :
    unitTrace extract c n = [Event.logSkip n] := by
  rw [unitTrace, if_pos hc]

theorem mem_runUnits_trace {extract : Nat → ExtractOutcome} {c : Finset Nat}
    {units : List Nat} {s : RunState} {ev : Event}
    (h : ev ∈ (runUnits extract c s units).trace) :
    ev ∈ s.trace ∨ ∃ n ∈ units, ev ∈ unitTrace extract c n := by
  rw [runUnits_trace, List.mem_append] at h
  rcases h with h | h
  · exact Or.inl h
  · right
    rw [List.mem_flatten] at h
    obtain ⟨l, hl, hev⟩ := h
    rw [List.mem_map] at hl
    obtain ⟨n, hn, rfl⟩ := hl
    exact ⟨n, hn, hev⟩

theorem extractCall_mem_unitTrace {c : Finset Nat} {n : Nat}
    (extract : Nat → ExtractOutcome) (hc : n ∉ c) :
    Event.extractCall n ∈ unitTrace extract c n := by
  rw [unitTrace, if_neg hc]
  cases hd : unitData extract n with
  | nil => exact List.mem_cons_self _ _
  | cons r rs => exact List.mem_cons_self _ _

theorem extractCall_mem_runUnits {extract : Nat → ExtractOutcome} {c : Finset Nat}
    {units : List Nat} {n : Nat} (s : RunState) (hn : n ∈ units) (hc : n ∉ c) :
    Event.extractCall n ∈ (runUnits extract c s units).trace := by
  rw [runUnits_trace, List.mem_append]
  right
  rw [List.mem_flatten]
  exact ⟨unitTrace extract c n, List.mem_map_of_mem _ hn,
    extractCall_mem_unitTrace extract hc⟩

theorem no_event_for_completed {extract : Nat → ExtractOutcome} {c : Finset Nat}
    {units : List Nat} {s : RunState} {u : Nat} {ev : Event}
    (hu : u ∈ c) (hev : eventUnit ev = some u) (hskip : ev ≠ Event.logSkip u)
    (hs : ev ∉ s.trace) : ev ∉ (runUnits extract c s units).trace := by
  intro h
  rcases mem_runUnits_trace h with h | ⟨n, _, h⟩
  · exact hs h
  · have htag := unitTrace_tag extract c n ev h
    rw [hev] at htag
    have : n = u := by injection htag.symm
    subst this
    rw [unitTrace_completed extract hu, List.mem_singleton] at h
    exact hskip h

/-! ### Master-file invariants of the driver -/

theorem processUnit_K {extract : Nat → ExtractOutcome} {c : Finset Nat}
    {s : RunState} (n : Nat)
    (hK : ∀ r ∈ s.fs.master.getD [], r ∈ s.all_data) :
    ∀ r ∈ (processUnit extract c s n).fs.master.getD [],
      r ∈ (processUnit extract c s n).all_data := by
  by_cases hc : n ∈ c
  · rw [processUnit_fs_of_completed extract s hc,
      processUnit_all_of_completed extract s hc]
    exact hK
  · cases hd : unitData extract n with
    | nil =>
      rw [processUnit_fs_of_nil s hc hd, processUnit_all_of_nil s hc hd]
      exact hK
    | cons r rs =>
      rw [processUnit_fs_of_cons s hc hd, processUnit_all_of_cons s hc hd,
        save_data_of_ne_nil _ (by simp)]
      intro x hx
      simpa using hx

theorem processUnit_master_mono {extract : Nat → ExtractOutcome} {c : Finset Nat}
    {s : RunState} (n : Nat)
    (hK : ∀ r ∈ s.fs.master.getD [], r ∈ s.all_data) :
    ∀ r ∈ s.fs.master.getD [], r ∈ (processUnit extract c s n).fs.master.getD [] := by
  intro r hr
  by_cases hc : n ∈ c
  · rw [processUnit_fs_of_completed extract s hc]
    exact hr
  · cases hd : unitData extract n with
    | nil =>
      rw [processUnit_fs_of_nil s hc hd]
      exact hr
    | cons r' rs =>
      rw [processUnit_fs_of_cons s hc hd, save_data_of_ne_nil _ (by simp)]
      simp only [Option.getD_some]
      exact List.mem_append_left _ (hK r hr)

theorem runUnits_K {extract : Nat → ExtractOutcome} {c : Finset Nat} :
    ∀ (units : List Nat) (s : RunState),
    (∀ r ∈ s.fs.master.getD [], r ∈ s.all_data) →
    ∀ r ∈ (runUnits extract c s units).fs.master.getD [],
      r ∈ (runUnits extract c s units).all_data := by
  intro units
  induction units with
  | nil => intro s hK; exact hK
  | cons n l ih =>
    intro s hK
    rw [runUnits_cons]
    exact ih _ (processUnit_K n hK)

theorem runUnits_master_mono {extract : Nat → ExtractOutcome} {c : Finset Nat} :
    ∀ (units : List Nat) (s : RunState),
    (∀ r ∈ s.fs.master.getD [], r ∈ s.all_data) →
    ∀ r ∈ s.fs.master.getD [], r ∈ (runUnits extract c s units).fs.master.getD [] := by
  intro units
  induction units with
  | nil => intro s _ r hr; exact hr
  | cons n l ih =>
    intro s hK r hr
    rw [runUnits_cons]
    exact ih _ (processUnit_K n hK) r (processUnit_master_mono n hK r hr)

theorem processUnit_names {extract : Nat → ExtractOutcome} {c : Finset Nat}
    (s : RunState) (n : Nat) :
    ∃ t, (processUnit extract c s n).fs.files.map Prod.fst =
      s.fs.files.map Prod.fst ++ t := by
  by_cases hc : n ∈ c
  · exact ⟨[], by rw [processUnit_fs_of_completed extract s hc, List.append_nil]⟩
  · cases hd : unitData extract n with
    | nil =>
      exact ⟨[], by rw [processUnit_fs_of_nil s hc hd, List.append_nil]⟩
    | cons r rs =>
      rw [processUnit_fs_of_cons s hc hd, save_data_files,
        save_constituency_data_files]
      rcases writeFile_names s.fs.files (constituencyFilename n r.cname) (r :: rs)
        with h | h
      · exact ⟨[], by rw [h, List.append_nil]⟩
      · exact ⟨_, h⟩

theorem runUnits_names {extract : Nat → ExtractOutcome} {c : Finset Nat} :
    ∀ (units : List Nat) (s : RunState),
    ∃ t, (runUnits extract c s units).fs.files.map Prod.fst =
      s.fs.files.map Prod.fst ++ t := by
  intro units
  induction units with
  | nil => intro s; exact ⟨[], by rw [runUnits_nil, List.append_nil]⟩
  | cons n l ih =>
    intro s
    rw [runUnits_cons]
    obtain ⟨t1, h1⟩ := @processUnit_names extract c s n
    obtain ⟨t2, h2⟩ := ih (processUnit extract c s n)
    exact ⟨t1 ++ t2, by rw [h2, h1, List.append_assoc]⟩

theorem runUnits_fs_noop {extract : Nat → ExtractOutcome} {c : Finset Nat} :
    ∀ (units : List Nat) (s : RunState),
    (∀ n ∈ units, n ∈ c ∨ unitData extract n = []) →
    (runUnits extract c s units).fs = s.fs := by
  intro units
  induction units with
  | nil => intro s _; rfl
  | cons n l ih =>
    intro s h
    rw [runUnits_cons, ih _ (fun m hm => h m (List.mem_cons_of_mem n hm))]
    rcases h n (List.mem_cons_self n l) with hc | hd
    · exact processUnit_fs_of_completed extract s hc
    · by_cases hc : n ∈ c
      · exact processUnit_fs_of_completed extract s hc
      · exact processUnit_fs_of_nil s hc hd

theorem runUnits_success_master {extract : Nat → ExtractOutcome} {c : Finset Nat} :
    ∀ (units : List Nat) (s : RunState),
    (∀ r ∈ s.fs.master.getD [], r ∈ s.all_data) →
    ∀ n ∈ units, n ∉ c → unitData extract n ≠ [] →
    ∃ r ∈ (runUnits extract c s units).fs.master.getD [], r.unit = n := by
  intro units
  induction units with
  | nil => intro s _ n hn; exact absurd hn (List.not_mem_nil n)
  | cons m l ih =>
    intro s hK n hn hc hd
    rw [runUnits_cons]
    rcases List.mem_cons.mp hn with rfl | hn
    · cases hdd : unitData extract n with
      | nil => exact absurd hdd hd
      | cons r rs =>
        refine ⟨r, runUnits_master_mono l _ (processUnit_K n hK) r ?_, ?_⟩
        · rw [processUnit_fs_of_cons s hc hdd, save_data_of_ne_nil _ (by simp)]
          simp only [Option.getD_some]
          exact List.mem_append_right _ (List.mem_cons_self r rs)
        · exact unitData_unit extract n r (hdd ▸ List.mem_cons_self r rs)
    · exact ih _ (processUnit_K m hK) n hn hc hd

theorem mem_masterUnits {master : Option (List Record)} {n : Nat} :
    n ∈ masterUnits master ↔ ∃ r ∈ master.getD [], r.unit = n := by
  simp [masterUnits, List.mem_toFinset, List.mem_map]

theorem get_completed_subset_run (extract : Nat → ExtractOutcome) (fs : FS)
    (units : List Nat) {x : Nat} (hx : x ∈ get_completed_constituencies fs) :
    x ∈ get_completed_constituencies
      (runUnits extract (get_completed_constituencies fs) (initState fs) units).fs := by
  rw [get_completed_constituencies, Finset.mem_union] at hx ⊢
  rcases hx with hx | hx
  · left
    obtain ⟨t, ht⟩ := @runUnits_names extract
      (get_completed_constituencies fs) units (initState fs)
    rw [ht]
    exact scan_append_subset _ t ∅ hx
  · right
    rw [mem_masterUnits] at hx ⊢
    obtain ⟨r, hr, hu⟩ := hx
    exact ⟨r, runUnits_master_mono units (initState fs) (fun a ha => ha) r hr, hu⟩

theorem run_twice_fs (extract : Nat → ExtractOutcome) (fs : FS) (units : List Nat) :
    (runUnits extract
        (get_completed_constituencies
          (runUnits extract (get_completed_constituencies fs) (initState fs) units).fs)
        (initState
          (runUnits extract (get_completed_constituencies fs) (initState fs) units).fs)
        units).fs
      = (runUnits extract (get_completed_constituencies fs) (initState fs) units).fs := by
  apply runUnits_fs_noop
  intro n hn
  by_cases hd : unitData extract n = []
  · exact Or.inr hd
  · left
    by_cases hc1n : n ∈ get_completed_constituencies fs
    · exact get_completed_subset_run extract fs units hc1n
    · obtain ⟨r, hr, hru⟩ := runUnits_success_master units (initState fs)
        (fun a ha => ha) n hn hc1n hd
      rw [get_completed_constituencies, Finset.mem_union]
      exact Or.inr (mem_masterUnits.mpr ⟨r, hr, hru⟩)

/-! ### Characterization of a run from fresh artifacts -/

theorem runUnits_from_fresh (extract : Nat → ExtractOutcome) :
    ∀ (units : List Nat) (s : RunState), units.Nodup →
    (∀ n ∈ units, ∀ fn ∈ s.fs.files.map Prod.fst, parseFilenameNum fn ≠ some n) →
    (runUnits extract ∅ s units).fs.files =
        s.fs.files ++ (units.filter (fun n => !(unitData extract n).isEmpty)).map
          (fun n => (constituencyFilename n (headCname (unitData extract n)),
            unitData extract n))
    ∧ (runUnits extract ∅ s units).all_data =
        s.all_data ++ (units.map (unitData extract)).flatten
    ∧ (runUnits extract ∅ s units).fs.master =
        (if (units.filter (fun n => !(unitData extract n).isEmpty)) = []
         then s.fs.master
         else some ((runUnits extract ∅ s units).all_data)) := by
  intro units
  induction units with
  | nil =>
    intro s _ _
    refine ⟨by simp [runUnits_nil], by simp [runUnits_nil], by simp [runUnits_nil]⟩
  | cons n l ih =>
    intro s hnd hfresh
    have hnotc : n ∉ (∅ : Finset Nat) := Finset.not_mem_empty n
    cases hd : unitData extract n with
    | nil =>
      have hstep_fs : (processUnit extract ∅ s n).fs = s.fs :=
        processUnit_fs_of_nil s hnotc hd
      have hstep_all : (processUnit extract ∅ s n).all_data = s.all_data :=
        processUnit_all_of_nil s hnotc hd
      have hfresh' : ∀ m ∈ l, ∀ fn ∈ (processUnit extract ∅ s n).fs.files.map Prod.fst,
          parseFilenameNum fn ≠ some m := by
        rw [hstep_fs]
        exact fun m hm => hfresh m (List.mem_cons_of_mem n hm)
      obtain ⟨Hf, Ha, Hm⟩ := ih (processUnit extract ∅ s n)
        (List.Nodup.of_cons hnd) hfresh'
      have hp : (!(unitData extract n).isEmpty) = false := by rw [hd]; rfl
      have hfil : (n :: l).filter (fun m => !(unitData extract m).isEmpty) =
          l.filter (fun m => !(unitData extract m).isEmpty) := by
        rw [List.filter_cons, hp]
        simp
      refine ⟨?_, ?_, ?_⟩
      · rw [runUnits_cons, Hf, hstep_fs, hfil]
      · rw [runUnits_cons, Ha, hstep_all, List.map_cons, hd, List.flatten_cons,
          List.nil_append]
      · rw [runUnits_cons, Hm, hstep_fs, hfil]
    | cons r rs =>
      have hfn : parseFilenameNum (constituencyFilename n r.cname) = some n :=
        parseFilenameNum_filename n r.cname
      have hfresh_n : constituencyFilename n r.cname ∉ s.fs.files.map Prod.fst :=
        fun hmem => hfresh n (List.mem_cons_self n l) _ hmem hfn
      have hstep_fs : (processUnit extract ∅ s n).fs =
          ⟨s.fs.files ++ [(constituencyFilename n r.cname, r :: rs)],
            some (s.all_data ++ r :: rs)⟩ := by
        rw [processUnit_fs_of_cons s hnotc hd, save_data_of_ne_nil _ (by simp),
          save_constituency_data_files, writeFile_of_fresh _ hfresh_n]
      have hstep_all : (processUnit extract ∅ s n).all_data = s.all_data ++ r :: rs :=
        processUnit_all_of_cons s hnotc hd
      have hfresh' : ∀ m ∈ l, ∀ fn ∈ (processUnit extract ∅ s n).fs.files.map Prod.fst,
          parseFilenameNum fn ≠ some m := by
        rw [hstep_fs]
        intro m hm fn hfn' hparse
        simp only [List.map_append, List.map_cons, List.map_nil,
          List.mem_append, List.mem_singleton] at hfn'
        rcases hfn' with hfn' | rfl
        · exact hfresh m (List.mem_cons_of_mem n hm) fn hfn' hparse
        · rw [hfn] at hparse
          have : n = m := by injection hparse
          subst this
          exact (List.nodup_cons.mp hnd).1 hm
      obtain ⟨Hf, Ha, Hm⟩ := ih (processUnit extract ∅ s n)
        (List.Nodup.of_cons hnd) hfresh'
      have hp : (!(unitData extract n).isEmpty) = true := by rw [hd]; rfl
      have hfil : (n :: l).filter (fun m => !(unitData extract m).isEmpty) =
          n :: l.filter (fun m => !(unitData extract m).isEmpty) := by
        rw [List.filter_cons, hp]
        simp
      refine ⟨?_, ?_, ?_⟩
      · rw [runUnits_cons, Hf, hstep_fs, hfil, List.map_cons, hd]
        show s.fs.files ++ [(constituencyFilename n r.cname, r :: rs)] ++ _ = _
        rw [List.append_assoc, List.singleton_append]
        rfl
      · rw [runUnits_cons, Ha, hstep_all, List.map_cons, hd, List.flatten_cons,
          List.append_assoc]
      · rw [runUnits_cons, Hm, hfil]
        rw [if_neg (List.cons_ne_nil _ _)]
        by_cases hlf : l.filter (fun m => !(unitData extract m).isEmpty) = []
        · rw [if_pos hlf]
          have hflat : (l.map (unitData extract)).flatten = [] := by
            rw [List.flatten_eq_nil_iff]
            intro x hx
            rw [List.mem_map] at hx
            obtain ⟨m, hm, rfl⟩ := hx
            cases hdm : unitData extract m with
            | nil => rfl
            | cons a b =>
              exfalso
              have hmem : m ∈ l.filter (fun m => !(unitData extract m).isEmpty) := by
                rw [List.mem_filter]
                exact ⟨hm, by rw [hdm]; rfl⟩
              rw [hlf] at hmem
              exact (List.not_mem_nil m) hmem
          rw [Ha, hstep_all, hflat, List.append_nil, hstep_fs]
        · rw [if_neg hlf]

theorem filterMap_eq_self {α : Type} (g : α → Option α) :
    ∀ l : List α, (∀ x ∈ l, g x = some x) → l.filterMap g = l := by
  intro l
  induction l with
  | nil => intro _; rfl
  | cons a t ih =>
    intro h
    rw [List.filterMap_cons, h a (List.mem_cons_self a t),
      ih (fun x hx => h x (List.mem_cons_of_mem a hx))]

theorem get_completed_run_empty (extract : Nat → ExtractOutcome) (units : List Nat)
    (hnd : units.Nodup) :
    get_completed_constituencies (runUnits extract ∅ (initState emptyFS) units).fs =
      (units.filter (fun n => !(unitData extract n).isEmpty)).toFinset := by
  obtain ⟨Hf, Ha, Hm⟩ := runUnits_from_fresh extract units (initState emptyFS) hnd
    (by intro n _ fn hfn; simp [initState, emptyFS] at hfn)
  have h0 : (initState emptyFS).fs.files = ([] : List (String × List Record)) := rfl
  have h1 : (initState emptyFS).fs.master = (none : Option (List Record)) := rfl
  have h2 : (initState emptyFS).all_data = ([] : List Record) := rfl
  rw [h0, List.nil_append] at Hf
  rw [h2, List.nil_append] at Ha
  rw [h1] at Hm
  rw [get_completed_constituencies, Hf, List.map_map]
  have hwf : ∀ fn ∈ (units.filter (fun n => !(unitData extract n).isEmpty)).map
      (Prod.fst ∘ (fun n => (constituencyFilename n (headCname (unitData extract n)),
        unitData extract n))),
      hasCsvExt fn = true → parseFilenameNum fn ≠ none := by
    intro fn hfn _
    rw [List.mem_map] at hfn
    obtain ⟨m, _, rfl⟩ := hfn
    rw [Function.comp_apply]
    rw [parseFilenameNum_filename]
    exact Option.some_ne_none m
  rw [scan_wellformed _ ∅ hwf]
  have hspec : specFileUnits
      ((units.filter (fun n => !(unitData extract n).isEmpty)).map
        (Prod.fst ∘ (fun n => (constituencyFilename n (headCname (unitData extract n)),
          unitData extract n)))) =
      (units.filter (fun n => !(unitData extract n).isEmpty)).toFinset := by
    rw [specFileUnits, List.filterMap_map]
    rw [filterMap_eq_self _ _ ?hall]
    case hall =>
      intro m _
      rw [Function.comp_apply, Function.comp_apply, if_pos (hasCsvExt_filename _ _),
        parseFilenameNum_filename]
  show (∅ ∪ specFileUnits _) ∪ masterUnits _ = _
  rw [hspec, Finset.empty_union]
  by_cases hlf : units.filter (fun n => !(unitData extract n).isEmpty) = []
  · rw [if_pos hlf] at Hm
    rw [Hm]
    show _ ∪ masterUnits none = _
    rw [hlf]
    rfl
  · rw [if_neg hlf] at Hm
    rw [Hm]
    refine Finset.union_eq_left.mpr ?_
    intro x hx
    rw [mem_masterUnits] at hx
    obtain ⟨r, hr, hru⟩ := hx
    simp only [Option.getD_some] at hr
    rw [Ha, List.mem_flatten] at hr
    obtain ⟨dl, hdl, hrdl⟩ := hr
    rw [List.mem_map] at hdl
    obtain ⟨m, hm, rfl⟩ := hdl
    have hmu : r.unit = m := unitData_unit extract m r hrdl
    rw [List.mem_toFinset, List.mem_filter]
    subst hru
    refine ⟨hmu ▸ hm, ?_⟩
    cases hdm : unitData extract (Record.unit r) with
    | nil =>
      rw [hmu] at hdm
      rw [hdm] at hrdl
      exact absurd hrdl (List.not_mem_nil r)
    | cons a b => rfl

theorem scan_append_wellformed : ∀ (xs rest : List String) (acc : Finset Nat),
    (∀ g ∈ xs, hasCsvExt g = true → parseFilenameNum g ≠ none) →
    scanConstituencyFiles (xs ++ rest) acc =
      scanConstituencyFiles rest (acc ∪ specFileUnits xs) := by
  intro xs
  induction xs with
  | nil =>
    intro rest acc _
    rw [List.nil_append]
    congr 1
    simp [specFileUnits]
  | cons f fs ih =>
    intro rest acc h
    rw [List.cons_append, scanConstituencyFiles]
    by_cases hcsv : hasCsvExt f = true
    · rw [if_pos hcsv]
      cases hp : parseFilenameNum f with
      | some n =>
        show scanConstituencyFiles (fs ++ rest) (insert n acc) = _
        rw [ih rest (insert n acc) (fun a ha => h a (List.mem_cons_of_mem f ha))]
        congr 1
        have hspec : specFileUnits (f :: fs) = insert n (specFileUnits fs) := by
          simp [specFileUnits, List.filterMap_cons, hcsv, hp]
        rw [hspec, Finset.insert_union, Finset.union_insert]
      | none =>
        exact absurd hp (h f (List.mem_cons_self f fs) hcsv)
    · rw [if_neg hcsv]
      rw [ih rest acc (fun a ha => h a (List.mem_cons_of_mem f ha))]
      congr 1
      have hspec : specFileUnits (f :: fs) = specFileUnits fs := by
        simp [specFileUnits, List.filterMap_cons, hcsv]
      rw [hspec]

theorem writeFile_mem (files : List (String × List Record)) (fn : String)
    (data : List Record) : fn ∈ (writeFile files fn data).map Prod.fst := by
  rw [writeFile]
  by_cases h : fn ∈ files.map Prod.fst
  · rw [if_pos h, map_fst_overwrite]
    exact h
  · rw [if_neg h]
    simp

theorem headCname_extractionRecords {n : Nat} {e : Extraction} (h : e.rows ≠ []) :
    headCname (extractionRecords n e) = e.cname := by
  cases hr : e.rows with
  | nil => exact absurd hr h
  | cons w ws => rw [extractionRecords, hr, List.map_cons, headCname]

/-! ### Claim theorems -/

/-- C1: Resume idempotence — running `scrape_all` a second time over the same
unit range against the artifacts left by the first run changes nothing: the
file system (hence the Completion Set and the combined master CSV) after the
second run equals the one after the first run, so no unit contributes
duplicate records. -/
theorem claim_resume_idempotence (extract : Nat → ExtractOutcome) (fs : FS)
    (start_from total_constituencies : Nat) :
    (scrape_all extract (scrape_all extract fs start_from total_constituencies).fs
        start_from total_constituencies).fs
      = (scrape_all extract fs start_from total_constituencies).fs ∧
    get_completed_constituencies
        (scrape_all extract (scrape_all extract fs start_from total_constituencies).fs
          start_from total_constituencies).fs
      = get_completed_constituencies
          (scrape_all extract fs start_from total_constituencies).fs ∧
    (scrape_all extract (scrape_all extract fs start_from total_constituencies).fs
        start_from total_constituencies).fs.master
      = (scrape_all extract fs start_from total_constituencies).fs.master := by
  have h := run_twice_fs extract fs
    (List.range' start_from (total_constituencies + 1 - start_from))
  exact ⟨h, congrArg get_completed_constituencies h, congrArg FS.master h⟩

/-- C4: Skip correctness — a unit in the Completion Set computed at driver
start is never handed to the Extractor during the run and gets no inter-unit
delay. -/
theorem claim_skip_correctness (extract : Nat → ExtractOutcome) (fs : FS)
    (start_from total_constituencies u : Nat)
    (h : u ∈ get_completed_constituencies fs) :
    Event.extractCall u ∉
      (scrape_all extract fs start_from total_constituencies).trace ∧
    Event.sleepAfter u ∉
      (scrape_all extract fs start_from total_constituencies).trace := by
  constructor
  · exact no_event_for_completed h rfl (by simp) (by simp [initState])
  · exact no_event_for_completed h rfl (by simp) (by simp [initState])

theorem claim_skip_correctness_witness :
    1 ∈ get_completed_constituencies ⟨[], some [⟨1, "AGIAON", []⟩]⟩ ∧
    (Event.extractCall 1 ∉
        (scrape_all demoExtract ⟨[], some [⟨1, "AGIAON", []⟩]⟩ 1 2).trace ∧
      Event.sleepAfter 1 ∉
        (scrape_all demoExtract ⟨[], some [⟨1, "AGIAON", []⟩]⟩ 1 2).trace) :=
  ⟨by decide,
    claim_skip_correctness demoExtract ⟨[], some [⟨1, "AGIAON", []⟩]⟩ 1 2 1 (by decide)⟩

/-- C3 (counterexample): with the directory listing order putting the
malformed `notanumber.csv` first, `get_completed_constituencies` does NOT
return `{1, 2}` — the parse failure aborts the whole directory scan, so the
two well-formed filenames after it are lost (the function returns `∅`). -/
theorem claim_malformed_counterexample :
    get_completed_constituencies
        ⟨[("notanumber.csv", []), ("001_AGIAON.csv", []), ("002_TARARI.csv", [])],
          none⟩
      ≠ ({1, 2} : Finset Nat) ∧
    get_completed_constituencies
        ⟨[("notanumber.csv", []), ("001_AGIAON.csv", []), ("002_TARARI.csv", [])],
          none⟩
      = (∅ : Finset Nat) := by
  constructor
  · decide
  · decide

/-- C3 (amended): a malformed `.csv` filename makes the directory scan stop
with a warning (no exception escapes): the well-formed `.csv` filenames
listed before the first malformed one contribute their parsed ids, the rest
of the listing contributes nothing.  In particular, for the listing order
`[001_AGIAON.csv, 002_TARARI.csv, notanumber.csv]` the tracker returns
`{1, 2}` and records the warning. -/
theorem claim_malformed_amended :
    (∀ (xs ys : List String) (f : String) (acc : Finset Nat),
      (∀ g ∈ xs, hasCsvExt g = true → parseFilenameNum g ≠ none) →
      hasCsvExt f = true → parseFilenameNum f = none →
      scanConstituencyFiles (xs ++ f :: ys) acc = (acc ∪ specFileUnits xs, true)) ∧
    get_completed_constituencies
        ⟨[("001_AGIAON.csv", []), ("002_TARARI.csv", []), ("notanumber.csv", [])],
          none⟩
      = ({1, 2} : Finset Nat) ∧
    scanWarned
        ⟨[("001_AGIAON.csv", []), ("002_TARARI.csv", []), ("notanumber.csv", [])],
          none⟩
      = true := by
  refine ⟨?_, by decide, by decide⟩
  intro xs ys f acc hwf hcsv hbad
  rw [scan_append_wellformed xs (f :: ys) acc hwf, scanConstituencyFiles,
    if_pos hcsv, hbad]

theorem claim_malformed_amended_witness :
    (∀ g ∈ ["001_AGIAON.csv"], hasCsvExt g = true → parseFilenameNum g ≠ none) ∧
    hasCsvExt "notanumber.csv" = true ∧
    parseFilenameNum "notanumber.csv" = none ∧
    scanConstituencyFiles (["001_AGIAON.csv"] ++ "notanumber.csv" :: []) ∅ =
      (∅ ∪ specFileUnits ["001_AGIAON.csv"], true) :=
  ⟨by decide, by decide, by decide,
    claim_malformed_amended.1 ["001_AGIAON.csv"] [] "notanumber.csv" ∅
      (by decide) (by decide) (by decide)⟩

/-- C7: the Completion Tracker returns the union of the ids parsed from the
per-unit `.csv` filenames (provided they all parse) and the distinct
`Constituency_Number` values of the master CSV; an absent directory or
master CSV contributes the empty set and nothing is raised. -/
theorem claim_completion_union (files : List (String × List Record))
    (master : Option (List Record))
    (h : ∀ fn ∈ files.map Prod.fst, hasCsvExt fn = true → parseFilenameNum fn ≠ none) :
    get_completed_constituencies ⟨files, master⟩ =
      specFileUnits (files.map Prod.fst) ∪ masterUnits master ∧
    get_completed_constituencies ⟨files, none⟩ =
      specFileUnits (files.map Prod.fst) ∧
    get_completed_constituencies ⟨[], master⟩ = masterUnits master ∧
    get_completed_constituencies emptyFS = ∅ := by
  have hscan := scan_wellformed (files.map Prod.fst) ∅ h
  refine ⟨?_, ?_, ?_, by decide⟩
  · show (scanConstituencyFiles (files.map Prod.fst) ∅).1 ∪ masterUnits master = _
    rw [hscan, Finset.empty_union]
  · show (scanConstituencyFiles (files.map Prod.fst) ∅).1 ∪ masterUnits none = _
    rw [hscan, Finset.empty_union]
    have : masterUnits none = ∅ := rfl
    rw [this, Finset.union_empty]
  · show (scanConstituencyFiles ([] : List String) ∅).1 ∪ masterUnits master = _
    rw [scanConstituencyFiles, Finset.empty_union]

theorem claim_completion_union_witness :
    (∀ fn ∈ ([("001_AGIAON.csv", ([] : List Record))].map Prod.fst),
      hasCsvExt fn = true → parseFilenameNum fn ≠ none) ∧
    (get_completed_constituencies ⟨[("001_AGIAON.csv", [])], some [⟨2, "TARARI", []⟩]⟩ =
        specFileUnits (([("001_AGIAON.csv", ([] : List Record))]).map Prod.fst) ∪
          masterUnits (some [⟨2, "TARARI", []⟩]) ∧
      get_completed_constituencies ⟨[("001_AGIAON.csv", [])], none⟩ =
        specFileUnits (([("001_AGIAON.csv", ([] : List Record))]).map Prod.fst) ∧
      get_completed_constituencies ⟨[], some [⟨2, "TARARI", []⟩]⟩ =
        masterUnits (some [⟨2, "TARARI", []⟩]) ∧
      get_completed_constituencies emptyFS = ∅) :=
  ⟨by decide,
    claim_completion_union [("001_AGIAON.csv", [])] (some [⟨2, "TARARI", []⟩])
      (by decide)⟩

/-- C6: Interrupt flush — on a user interrupt during a `--all` run, `main`
rewrites the combined master CSV from the accumulated in-memory run state
(provided it is nonempty; `save_data` skips the write when there is nothing
to save) and prints the message that names the file progress was saved to. -/
theorem claim_interrupt_flush (output_file : String) (s : RunState)
    (h : s.all_data ≠ []) :
    (main_on_interrupt output_file true s).fs.master = some s.all_data ∧
    ("Progress saved to " ++ output_file) ∈
      (main_on_interrupt output_file true s).printed ∧
    "Scraping interrupted by user!" ∈
      (main_on_interrupt output_file true s).printed := by
  rw [main_on_interrupt, if_pos rfl]
  refine ⟨?_, by simp, by simp⟩
  rw [save_data_of_ne_nil _ h]

theorem claim_interrupt_flush_witness :
    ([⟨1, "AGIAON", []⟩] : List Record) ≠ [] ∧
    ((main_on_interrupt "bihar_election_results.csv" true
        ⟨emptyFS, [⟨1, "AGIAON", []⟩], []⟩).fs.master = some [⟨1, "AGIAON", []⟩] ∧
      ("Progress saved to " ++ "bihar_election_results.csv") ∈
        (main_on_interrupt "bihar_election_results.csv" true
          ⟨emptyFS, [⟨1, "AGIAON", []⟩], []⟩).printed ∧
      "Scraping interrupted by user!" ∈
        (main_on_interrupt "bihar_election_results.csv" true
          ⟨emptyFS, [⟨1, "AGIAON", []⟩], []⟩).printed) :=
  ⟨by decide,
    claim_interrupt_flush "bihar_election_results.csv"
      ⟨emptyFS, [⟨1, "AGIAON", []⟩], []⟩ (by decide)⟩

/-- C8: Filename round-trip — for a unit id `u ≤ 999` (the format is 3-digit
only up to 999; the default range is 1..243) and any constituency name,
`save_constituency_data` writes exactly one artifact, named by the 3-digit
zero-padded id, an underscore, the sanitized name and `.csv`; its leading
token has exactly 3 characters and `get_completed_constituencies`'s parser
recovers exactly `u` from it. -/
theorem claim_filename_roundtrip (fs : FS) (u : Nat) (name : String)
    (r : Record) (rs : List Record) (h1 : 1 ≤ u) (h999 : u ≤ 999) :
    (save_constituency_data fs (r :: rs) u name).2 =
      some (constituencyFilename u name) ∧
    parseFilenameNum (constituencyFilename u name) = some u ∧
    ((constituencyFilename u name).data.takeWhile (fun c => c ≠ '_')).length = 3 ∧
    ((save_constituency_data fs (r :: rs) u name).1.files.map Prod.fst =
        fs.files.map Prod.fst ++ [constituencyFilename u name] ∨
      (save_constituency_data fs (r :: rs) u name).1.files.map Prod.fst =
        fs.files.map Prod.fst) ∧
    constituencyFilename u name ∈
      (save_constituency_data fs (r :: rs) u name).1.files.map Prod.fst := by
  refine ⟨rfl, parseFilenameNum_filename u name, ?_, ?_, ?_⟩
  · have htw : (constituencyFilename u name).data.takeWhile (fun c => c ≠ '_') =
        pad3chars u := by
      rw [constituencyFilename]
      show List.takeWhile _ (pad3chars u ++ '_' ::
        ((sanitize name).data ++ ['.', 'c', 's', 'v'])) = _
      exact takeWhile_append_cons _ _ _ _
        (fun x hx => decide_eq_true (pad3chars_digits hx).2) (by decide)
    rw [htw, pad3chars, List.length_append, List.length_replicate]
    have hlen : (natDecChars u).length ≤ 3 := by
      rw [natDecChars_eq, List.length_reverse, List.length_map]
      by_contra hlt
      push_neg at hlt
      have h4 : (10:ℕ) ^ 4 ≤ 10 ^ (Nat.digits 10 u).length :=
        Nat.pow_le_pow_right (by norm_num) hlt
      have hb := Nat.base_pow_length_digits_le 10 u (by norm_num) (by omega)
      have hcon : (10:ℕ) ^ 4 ≤ 10 * u := le_trans h4 hb
      norm_num at hcon
      omega
    omega
  · rw [save_constituency_data_files]
    exact Or.symm (writeFile_names fs.files (constituencyFilename u name) (r :: rs))
  · rw [save_constituency_data_files]
    exact writeFile_mem fs.files _ (r :: rs)

theorem claim_filename_roundtrip_witness :
    1 ≤ 7 ∧ 7 ≤ 999 ∧
    ((save_constituency_data emptyFS [⟨7, "AGIAON WEST", []⟩] 7 "AGIAON WEST").2 =
        some (constituencyFilename 7 "AGIAON WEST") ∧
      parseFilenameNum (constituencyFilename 7 "AGIAON WEST") = some 7 ∧
      ((constituencyFilename 7 "AGIAON WEST").data.takeWhile
        (fun c => c ≠ '_')).length = 3 ∧
      ((save_constituency_data emptyFS [⟨7, "AGIAON WEST", []⟩] 7
            "AGIAON WEST").1.files.map Prod.fst =
          emptyFS.files.map Prod.fst ++ [constituencyFilename 7 "AGIAON WEST"] ∨
        (save_constituency_data emptyFS [⟨7, "AGIAON WEST", []⟩] 7
            "AGIAON WEST").1.files.map Prod.fst =
          emptyFS.files.map Prod.fst) ∧
      constituencyFilename 7 "AGIAON WEST" ∈
        (save_constituency_data emptyFS [⟨7, "AGIAON WEST", []⟩] 7
          "AGIAON WEST").1.files.map Prod.fst) :=
  ⟨by decide, by decide,
    claim_filename_roundtrip emptyFS 7 "AGIAON WEST" ⟨7, "AGIAON WEST", []⟩ []
      (by decide) (by decide)⟩

/-- C9 (counterexample): a fatal error during a `--all` run does NOT
produce a non-zero exit code — `main` swallows the exception, saves
progress, prints, and falls through to a normal return, so the process
exits 0. -/
theorem claim_exit_code_counterexample :
    (main_on_fatal "bihar_election_results.csv" true ⟨emptyFS, [], []⟩).exitCode
      = 0 := by decide

/-- C9 (amended): on a fatal error during a `--all` run the process flushes
the partial run state (when nonempty) and prints the error message, but
exits with code 0, not non-zero; on success it exits 0 and, when at least
one record was collected, prints a summary with the total record count and
the distinct constituency count. -/
theorem claim_exit_behavior_amended (output_file : String) (s : RunState)
    (extract : Nat → ExtractOutcome) (fs : FS)
    (start_from total_constituencies : Nat) (h : s.all_data ≠ []) :
    (main_on_fatal output_file true s).exitCode = 0 ∧
    (main_on_fatal output_file true s).fs.master = some s.all_data ∧
    ("Error occurred. Progress saved to " ++ output_file) ∈
      (main_on_fatal output_file true s).printed ∧
    (main_on_success extract fs start_from total_constituencies).exitCode = 0 ∧
    ((scrape_all extract fs start_from total_constituencies).all_data ≠ [] →
      ("Total Records: " ++ toString
          (scrape_all extract fs start_from total_constituencies).all_data.length) ∈
        (main_on_success extract fs start_from total_constituencies).printed ∧
      ("Constituencies Scraped: " ++ toString
          ((scrape_all extract fs start_from
            total_constituencies).all_data.map Record.unit).toFinset.card) ∈
        (main_on_success extract fs start_from total_constituencies).printed) := by
  refine ⟨?_, ?_, ?_, rfl, ?_⟩
  · rw [main_on_fatal, if_pos rfl]
  · rw [main_on_fatal, if_pos rfl]
    rw [save_data_of_ne_nil _ h]
  · rw [main_on_fatal, if_pos rfl]
    simp
  · intro hne
    cases hd : (scrape_all extract fs start_from total_constituencies).all_data with
    | nil => exact absurd hd hne
    | cons a t =>
      constructor
      · simp [main_on_success, generate_summary, hd]
      · simp [main_on_success, generate_summary, hd]

theorem claim_exit_behavior_amended_witness :
    ([⟨1, "AGIAON", []⟩] : List Record) ≠ [] ∧
    ((main_on_fatal "out.csv" true ⟨emptyFS, [⟨1, "AGIAON", []⟩], []⟩).exitCode = 0 ∧
      (main_on_fatal "out.csv" true ⟨emptyFS, [⟨1, "AGIAON", []⟩], []⟩).fs.master =
        some [⟨1, "AGIAON", []⟩] ∧
      ("Error occurred. Progress saved to " ++ "out.csv") ∈
        (main_on_fatal "out.csv" true ⟨emptyFS, [⟨1, "AGIAON", []⟩], []⟩).printed ∧
      (main_on_success demoExtract emptyFS 1 1).exitCode = 0 ∧
      ((scrape_all demoExtract emptyFS 1 1).all_data ≠ [] →
        ("Total Records: " ++ toString
            (scrape_all demoExtract emptyFS 1 1).all_data.length) ∈
          (main_on_success demoExtract emptyFS 1 1).printed ∧
        ("Constituencies Scraped: " ++ toString
            ((scrape_all demoExtract emptyFS 1 1).all_data.map
              Record.unit).toFinset.card) ∈
          (main_on_success demoExtract emptyFS 1 1).printed)) :=
  ⟨by decide,
    claim_exit_behavior_amended "out.csv" ⟨emptyFS, [⟨1, "AGIAON", []⟩], []⟩
      demoExtract emptyFS 1 1 (by decide)⟩

/-- C10: `scrape_single` range guard — an out-of-range constituency number
returns `False` before any driver is created, no Extractor call and no
artifact write; in range, the Extractor runs exactly once, the result is
`True` iff at least one record came back, and in that case the per-unit
artifact is written. -/
theorem claim_single_range_guard (extract : Nat → ExtractOutcome) (fs : FS)
    (constituency_num total_constituencies : Nat) :
    (constituency_num < 1 ∨ total_constituencies < constituency_num →
      scrape_single extract fs constituency_num total_constituencies =
        (fs, false, [])) ∧
    (1 ≤ constituency_num → constituency_num ≤ total_constituencies →
      ((scrape_single extract fs constituency_num
          total_constituencies).2.2.countP isExtractCall = 1 ∧
        ((scrape_single extract fs constituency_num total_constituencies).2.1 = true
          ↔ unitData extract constituency_num ≠ []) ∧
        (unitData extract constituency_num ≠ [] →
          constituencyFilename constituency_num
              (headCname (unitData extract constituency_num)) ∈
            (scrape_single extract fs constituency_num
              total_constituencies).1.files.map Prod.fst))) := by
  constructor
  · intro h
    rw [scrape_single, if_pos h]
  · intro h1 h2
    have hno : ¬(constituency_num < 1 ∨ total_constituencies < constituency_num) := by
      omega
    cases hd : unitData extract constituency_num with
    | nil =>
      have hd' : (scrape_constituency extract constituency_num).1 = [] := hd
      have hss : scrape_single extract fs constituency_num total_constituencies =
          (fs, false, Event.createDriver :: Event.extractCall constituency_num ::
            (scrape_constituency extract constituency_num).2) := by
        rw [scrape_single, if_neg hno, hd']
      rw [hss]
      refine ⟨?_, ?_, ?_⟩
      · rcases unitLogs_cases extract constituency_num with hl | hl <;>
          rw [unitLogs] at hl <;> rw [hl] <;> rfl
      · simp
      · intro hcon
        exact absurd rfl hcon
    | cons r rs =>
      have hd' : (scrape_constituency extract constituency_num).1 = r :: rs := hd
      have hss : scrape_single extract fs constituency_num total_constituencies =
          ((save_constituency_data fs (r :: rs) constituency_num r.cname).1, true,
            Event.createDriver :: Event.extractCall constituency_num ::
              (scrape_constituency extract constituency_num).2) := by
        rw [scrape_single, if_neg hno, hd']
      rw [hss]
      refine ⟨?_, ?_, ?_⟩
      · rcases unitLogs_cases extract constituency_num with hl | hl <;>
          rw [unitLogs] at hl <;> rw [hl] <;> rfl
      · simp
      · intro _
        rw [show headCname (r :: rs) = r.cname from rfl,
          save_constituency_data_files]
        exact writeFile_mem fs.files _ (r :: rs)

theorem claim_single_range_guard_witness :
    ((0 : Nat) < 1 ∨ (243 : Nat) < 0) ∧
    scrape_single demoExtract emptyFS 0 243 = (emptyFS, false, []) ∧
    (1 : Nat) ≤ 1 ∧ (1 : Nat) ≤ 243 ∧
    ((scrape_single demoExtract emptyFS 1 243).2.2.countP isExtractCall = 1 ∧
      ((scrape_single demoExtract emptyFS 1 243).2.1 = true ↔
        unitData demoExtract 1 ≠ [])) :=
  ⟨by decide,
    (claim_single_range_guard demoExtract emptyFS 0 243).1 (by decide),
    by decide, by decide,
    ((claim_single_range_guard demoExtract emptyFS 1 243).2 (by decide)
        (by decide)).1,
    ((claim_single_range_guard demoExtract emptyFS 1 243).2 (by decide)
        (by decide)).2.1⟩

/-- C5: Failure isolation — with a fresh output state and units 1..5, if the
Extractor fails on unit 3 (timeout or error) and succeeds with records on
1, 2, 4, 5, the driver logs the error for 3, writes no per-unit artifact
for 3, and continues: the final Completion Set is `{1, 2, 4, 5}` and units
4 and 5 are persisted after the failure. -/
theorem claim_failure_isolation (extract : Nat → ExtractOutcome)
    (ext : Nat → Extraction)
    (h3 : extract 3 = ExtractOutcome.timeout ∨ extract 3 = ExtractOutcome.err)
    (hok : ∀ i ∈ [1, 2, 4, 5], extract i = ExtractOutcome.ok (ext i) ∧
      (ext i).rows ≠ []) :
    get_completed_constituencies (scrape_all extract emptyFS 1 5).fs =
      {1, 2, 4, 5} ∧
    Event.logError 3 ∈ (scrape_all extract emptyFS 1 5).trace ∧
    Event.savedUnit 3 ∉ (scrape_all extract emptyFS 1 5).trace ∧
    ∀ i ∈ [1, 2, 4, 5], Event.savedUnit i ∈ (scrape_all extract emptyFS 1 5).trace := by
  have hu3 : unitData extract 3 = [] := by
    rcases h3 with h | h <;> simp [unitData, scrape_constituency, h]
  have hlog3 : unitLogs extract 3 = [Event.logError 3] := by
    rcases h3 with h | h <;> simp [unitLogs, scrape_constituency, h]
  have hDi : ∀ i ∈ [1, 2, 4, 5], unitData extract i = extractionRecords i (ext i) := by
    intro i hi
    simp only [unitData, scrape_constituency, (hok i hi).1]
  have hui : ∀ i ∈ [1, 2, 4, 5], unitData extract i ≠ [] := by
    intro i hi
    rw [hDi i hi]
    cases hr : (ext i).rows with
    | nil => exact absurd hr (hok i hi).2
    | cons w ws =>
      rw [extractionRecords, hr]
      simp
  have hg0 : get_completed_constituencies emptyFS = ∅ := by decide
  have hunits : List.range' 1 (5 + 1 - 1) = [1, 2, 3, 4, 5] := by decide
  have hrun : scrape_all extract emptyFS 1 5 =
      runUnits extract ∅ (initState emptyFS) [1, 2, 3, 4, 5] := by
    rw [scrape_all, hg0, hunits]
  have hp : ∀ i ∈ [1, 2, 4, 5], (!(unitData extract i).isEmpty) = true := by
    intro i hi
    cases hdi : unitData extract i with
    | nil => exact absurd hdi (hui i hi)
    | cons a b => rfl
  have hp3 : (!(unitData extract 3).isEmpty) = false := by rw [hu3]; rfl
  have hfil : List.filter (fun n => !(unitData extract n).isEmpty) [1, 2, 3, 4, 5] =
      [1, 2, 4, 5] := by
    have e1 := hp 1 (by decide)
    have e2 := hp 2 (by decide)
    have e4 := hp 4 (by decide)
    have e5 := hp 5 (by decide)
    simp [List.filter_cons, e1, e2, e4, e5, hp3]
  have hcomp : get_completed_constituencies (scrape_all extract emptyFS 1 5).fs =
      {1, 2, 4, 5} := by
    rw [hrun, get_completed_run_empty extract [1, 2, 3, 4, 5] (by decide), hfil]
    decide
  have hut3 : unitTrace extract ∅ 3 =
      [Event.extractCall 3, Event.logError 3, Event.sleepAfter 3] := by
    rw [unitTrace, if_neg (Finset.not_mem_empty 3), hu3, hlog3]
    decide
  refine ⟨hcomp, ?_, ?_, ?_⟩
  · rw [hrun, runUnits_trace]
    refine List.mem_append_right _ ?_
    rw [List.mem_flatten]
    refine ⟨unitTrace extract ∅ 3, List.mem_map_of_mem _ (by decide), ?_⟩
    rw [hut3]
    decide
  · rw [hrun]
    intro hmem
    rcases mem_runUnits_trace hmem with hmem | ⟨n, hn, hmem⟩
    · simp [initState] at hmem
    · have htag := unitTrace_tag extract ∅ n _ hmem
      simp only [eventUnit] at htag
      have hn3 : (3 : Nat) = n := by injection htag
      subst hn3
      rw [hut3] at hmem
      exact absurd hmem (by decide)
  · intro i hi
    rw [hrun, runUnits_trace]
    refine List.mem_append_right _ ?_
    rw [List.mem_flatten]
    refine ⟨unitTrace extract ∅ i, List.mem_map_of_mem _ ?_, ?_⟩
    · fin_cases hi <;> decide
    · rw [unitTrace, if_neg (Finset.not_mem_empty i)]
      cases hdi : unitData extract i with
      | nil => exact absurd hdi (hui i hi)
      | cons a b =>
        exact List.mem_cons_of_mem _ (List.mem_append_right _
          (List.mem_cons_self _ _))

theorem claim_failure_isolation_witness :
    (demoFailExtract 3 = ExtractOutcome.timeout ∨
      demoFailExtract 3 = ExtractOutcome.err) ∧
    (∀ i ∈ [1, 2, 4, 5], demoFailExtract i = ExtractOutcome.ok demoExtraction ∧
      demoExtraction.rows ≠ []) ∧
    (get_completed_constituencies (scrape_all demoFailExtract emptyFS 1 5).fs =
        {1, 2, 4, 5} ∧
      Event.logError 3 ∈ (scrape_all demoFailExtract emptyFS 1 5).trace ∧
      Event.savedUnit 3 ∉ (scrape_all demoFailExtract emptyFS 1 5).trace ∧
      ∀ i ∈ [1, 2, 4, 5],
        Event.savedUnit i ∈ (scrape_all demoFailExtract emptyFS 1 5).trace) :=
  ⟨by decide, by decide,
    claim_failure_isolation demoFailExtract (fun _ => demoExtraction)
      (by decide) (by decide)⟩

/-- C2: Partial-progress durability — starting from fresh artifacts, after
the driver has processed units 1..k (all succeeding with records) and is
stopped before unit k+1, the per-unit directory holds exactly the k
per-unit artifacts, the combined master CSV holds exactly the records of
units 1..k, the Completion Set recomputed from the artifacts is {1..k},
and a restarted full run skips 1..k (no Extractor call) and calls the
Extractor on unit k+1. -/
theorem claim_partial_progress (extract : Nat → ExtractOutcome)
    (ext : Nat → Extraction) (k total_constituencies : Nat)
    (hok : ∀ i, 1 ≤ i → i ≤ k → extract i = ExtractOutcome.ok (ext i) ∧
      (ext i).rows ≠ [])
    (hk1 : 1 ≤ k) (hk : k < total_constituencies) :
    (runUnits extract (get_completed_constituencies emptyFS) (initState emptyFS)
        (List.range' 1 k)).fs.files =
      (List.range' 1 k).map (fun i => (constituencyFilename i (ext i).cname,
        extractionRecords i (ext i))) ∧
    (runUnits extract (get_completed_constituencies emptyFS) (initState emptyFS)
        (List.range' 1 k)).fs.master =
      some (((List.range' 1 k).map (fun i => extractionRecords i (ext i))).flatten) ∧
    get_completed_constituencies
        (runUnits extract (get_completed_constituencies emptyFS)
          (initState emptyFS) (List.range' 1 k)).fs = Finset.Icc 1 k ∧
    (∀ i, 1 ≤ i → i ≤ k → Event.extractCall i ∉
      (scrape_all extract
        (runUnits extract (get_completed_constituencies emptyFS)
          (initState emptyFS) (List.range' 1 k)).fs
        1 total_constituencies).trace) ∧
    Event.extractCall (k + 1) ∈
      (scrape_all extract
        (runUnits extract (get_completed_constituencies emptyFS)
          (initState emptyFS) (List.range' 1 k)).fs
        1 total_constituencies).trace := by
  have hg0 : get_completed_constituencies emptyFS = ∅ := by decide
  rw [hg0]
  have hmem : ∀ i ∈ List.range' 1 k, 1 ≤ i ∧ i ≤ k := by
    intro i hi
    rw [List.mem_range'_1] at hi
    omega
  have hDi : ∀ i ∈ List.range' 1 k,
      unitData extract i = extractionRecords i (ext i) := by
    intro i hi
    simp only [unitData, scrape_constituency, (hok i (hmem i hi).1 (hmem i hi).2).1]
  have hui : ∀ i ∈ List.range' 1 k, unitData extract i ≠ [] := by
    intro i hi
    rw [hDi i hi]
    cases hr : (ext i).rows with
    | nil => exact absurd hr (hok i (hmem i hi).1 (hmem i hi).2).2
    | cons w ws =>
      rw [extractionRecords, hr]
      simp
  have hp : ∀ i ∈ List.range' 1 k, (!(unitData extract i).isEmpty) = true := by
    intro i hi
    cases hdi : unitData extract i with
    | nil => exact absurd hdi (hui i hi)
    | cons a b => rfl
  have hfil : (List.range' 1 k).filter (fun n => !(unitData extract n).isEmpty) =
      List.range' 1 k := List.filter_eq_self.mpr hp
  have hnd : (List.range' 1 k).Nodup := by
    apply List.nodup_range'
    decide
  obtain ⟨Hf, Ha, Hm⟩ := runUnits_from_fresh extract (List.range' 1 k)
    (initState emptyFS) hnd (by intro n _ fn hfn; simp [initState, emptyFS] at hfn)
  have h0 : (initState emptyFS).fs.files = ([] : List (String × List Record)) := rfl
  have h2' : (initState emptyFS).all_data = ([] : List Record) := rfl
  rw [h0, List.nil_append, hfil] at Hf
  rw [h2', List.nil_append] at Ha
  rw [hfil] at Hm
  have hmapF : (List.range' 1 k).map
      (fun n => (constituencyFilename n (headCname (unitData extract n)),
        unitData extract n)) =
      (List.range' 1 k).map (fun i => (constituencyFilename i (ext i).cname,
        extractionRecords i (ext i))) := by
    apply List.map_congr_left
    intro i hi
    rw [hDi i hi, headCname_extractionRecords
      (hok i (hmem i hi).1 (hmem i hi).2).2]
  have hmapD : (List.range' 1 k).map (unitData extract) =
      (List.range' 1 k).map (fun i => extractionRecords i (ext i)) :=
    List.map_congr_left hDi
  have hne : List.range' 1 k ≠ [] := by
    intro hnil
    have hlen := congrArg List.length hnil
    rw [List.length_range'] at hlen
    simp at hlen
    omega
  have hcomp : get_completed_constituencies
      (runUnits extract ∅ (initState emptyFS) (List.range' 1 k)).fs =
      Finset.Icc 1 k := by
    rw [get_completed_run_empty extract _ hnd, hfil]
    ext x
    rw [List.mem_toFinset, List.mem_range'_1, Finset.mem_Icc]
    omega
  refine ⟨?_, ?_, hcomp, ?_, ?_⟩
  · rw [Hf, hmapF]
  · rw [if_neg hne] at Hm
    rw [Hm, Ha, hmapD]
  · intro i hi1 hik
    exact no_event_for_completed
      (by rw [hcomp]; exact Finset.mem_Icc.mpr ⟨hi1, hik⟩) rfl (by simp)
      (by simp [initState])
  · refine extractCall_mem_runUnits (initState _) ?_ ?_
    · rw [List.mem_range'_1]
      omega
    · rw [hcomp]
      intro hmem'
      rw [Finset.mem_Icc] at hmem'
      omega

theorem claim_partial_progress_witness :
    (∀ i, 1 ≤ i → i ≤ 2 → demoExtract i = ExtractOutcome.ok demoExtraction ∧
      demoExtraction.rows ≠ []) ∧ (1 : Nat) ≤ 2 ∧ (2 : Nat) < 3 ∧
    ((runUnits demoExtract (get_completed_constituencies emptyFS)
        (initState emptyFS) (List.range' 1 2)).fs.files =
      (List.range' 1 2).map (fun i => (constituencyFilename i demoExtraction.cname,
        extractionRecords i demoExtraction)) ∧
    (runUnits demoExtract (get_completed_constituencies emptyFS)
        (initState emptyFS) (List.range' 1 2)).fs.master =
      some (((List.range' 1 2).map
        (fun i => extractionRecords i demoExtraction)).flatten) ∧
    get_completed_constituencies
        (runUnits demoExtract (get_completed_constituencies emptyFS)
          (initState emptyFS) (List.range' 1 2)).fs = Finset.Icc 1 2 ∧
    (∀ i, 1 ≤ i → i ≤ 2 → Event.extractCall i ∉
      (scrape_all demoExtract
        (runUnits demoExtract (get_completed_constituencies emptyFS)
          (initState emptyFS) (List.range' 1 2)).fs 1 3).trace) ∧
    Event.extractCall (2 + 1) ∈
      (scrape_all demoExtract
        (runUnits demoExtract (get_completed_constituencies emptyFS)
          (initState emptyFS) (List.range' 1 2)).fs 1 3).trace) := by
  refine ⟨?_, by decide, by decide, ?_⟩
  · intro i h1 h2
    interval_cases i <;> exact ⟨rfl, by decide⟩
  · exact claim_partial_progress demoExtract (fun _ => demoExtraction) 2 3
      (fun i h1 h2 => by interval_cases i <;> exact ⟨rfl, by decide⟩)
      (by decide) (by decide)
